import Mathlib

/-!
Shallow embedding of `src/bin/crabby.rs` from the octocrabby repository: the
command dispatcher for `block-users`, `list-pr-contributors` and
`check-follow`, together with the contributor-aggregation pipeline.

Remote calls (`block_user`, `pull_requests`, `check_follow`, the "who am I"
probe and `load_additional_user_info`) are passed in as explicit oracles of
type `Except TransportError _`, so the control flow of the dispatcher is
modelled exactly while the network stays abstract.  Timestamps are modelled
as whole seconds since the epoch (`Int`), matching the second-granularity
arithmetic the code performs on them (`chrono::Duration::num_days` is
truncating division of the signed number of seconds by 86400).
-/

namespace Octocrabby

/-- Decidable equality for `Except`, used to evaluate run outcomes on
concrete inputs. -/
instance {ε α : Type} [DecidableEq ε] [DecidableEq α] :
    DecidableEq (Except ε α) := fun a b =>
  match a, b with
  | .ok x, .ok y =>
    if h : x = y then .isTrue (by rw [h]) else .isFalse (by simp [h])
  | .error x, .error y =>
    if h : x = y then .isTrue (by rw [h]) else .isFalse (by simp [h])
  | .ok _, .error _ => .isFalse (by simp)
  | .error _, .ok _ => .isFalse (by simp)

/-- A forge account, as used by the binary: login and numeric id. -/
structure Account where
  login : String
  id : Nat
  deriving Repr, DecidableEq

/-- A pull request as consumed by the aggregator: author and creation time
(seconds since epoch). -/
structure PullRequest where
  user : Account
  created_at : Int
  deriving Repr, DecidableEq

/-- `octocrabby::models::UserInfo`: the per-login profile record returned by
the batch user-info lookup. -/
structure UserInfo where
  login : String
  created_at : Int
  name : Option String
  twitter_username : Option String
  deriving Repr, DecidableEq

/-- A CSV-level failure from the `csv` crate reader. -/
inductive CsvError where
  | parse (msg : String)
  deriving Repr, DecidableEq

/-- A network/HTTP failure from a remote call. -/
inductive TransportError where
  | http (code : Nat)
  deriving Repr, DecidableEq

/-- The error surface of the binary (`Box<dyn Error>` in the code, split by
provenance; `inputFormat` is the spec's `InputFormatError` taxon). -/
inductive CrabbyError where
  | inputFormat (msg : String)
  | csv (e : CsvError)
  | transport (e : TransportError)
  deriving Repr, DecidableEq

/-! ## The `block-users` command

`csv::Reader::from_reader(stdin)` is built with default settings, so
`has_headers = true`: the first row of the input is interpreted as a CSV
header and `reader.records()` yields only the rows after it.  A record always
has at least one field, which we make structural: a record is its first field
paired with the (ignored) remaining fields. -/

/-- One successfully parsed CSV record: first field plus the rest. -/
abbrev CsvRecord := String × List String

/-- The record sequence `reader.records()` yields for a given raw row list:
the first row is consumed as the header. -/
def readRecords (stdin : List (Except CsvError CsvRecord)) :
    List (Except CsvError CsvRecord) :=
  stdin.drop 1

/-- First loop of `Command::BlockUsers`: push `record?.get(0)` for every
record, propagating the first CSV error. -/
def collectUsernames : List (Except CsvError CsvRecord) → Except CsvError (List String)
  | [] => .ok []
  | .error e :: _ => .error e
  | .ok rec :: rest => (collectUsernames rest).map (rec.1 :: ·)

/-- Outcome of a `block-users` run: the logins for which `block_user` was
invoked, in order, and the final result of `main`. -/
structure BlockRun where
  attempted : List String
  result : Except CrabbyError Unit
  deriving Repr, DecidableEq

/-- Second loop of `Command::BlockUsers`: `block_user(&instance, &username).await?`
per username; the `?` aborts the loop on the first transport error. -/
def processBlocks (block : String → Except TransportError Bool) :
    List String → BlockRun
  | [] => ⟨[], .ok ()⟩
  | u :: rest =>
    match block u with
    | .error e => ⟨[u], .error (.transport e)⟩
    | .ok _ =>
      let r := processBlocks block rest
      ⟨u :: r.attempted, r.result⟩

/-- The whole `Command::BlockUsers` arm: parse all of stdin first, then block
each collected username. -/
def blockUsers (stdin : List (Except CsvError CsvRecord))
    (block : String → Except TransportError Bool) : BlockRun :=
  match collectUsernames (readRecords stdin) with
  | .error e => ⟨[], .error (.csv e)⟩
  | .ok usernames => processBlocks block usernames

/-! ## The contributor-aggregation pipeline (`Command::ListPrContributors`)

`prs.sort_unstable_by_key(|pr| pr.user.login.clone())` sorts the collected
pull requests by author login (the relative order of equal logins is
unspecified in the source; we realise it with insertion sort, a sorted
permutation).  `group_by(|pr| (login, id))` from itertools groups *adjacent*
elements with equal key, realised by `groupKeyed` below. -/

/-- The grouping key used by the code: `(pr.user.login, pr.user.id)`. -/
def PullRequest.key (pr : PullRequest) : String × Nat :=
  (pr.user.login, pr.user.id)

/-- The sort order used by `sort_unstable_by_key`: comparison of author
logins. -/
def loginLE (a b : PullRequest) : Prop :=
  a.user.login ≤ b.user.login

instance : DecidableRel loginLE := fun a b =>
  inferInstanceAs (Decidable (a.user.login ≤ b.user.login))

instance : IsTotal PullRequest loginLE :=
  ⟨fun a b => le_total a.user.login b.user.login⟩

instance : IsTrans PullRequest loginLE :=
  ⟨fun _ _ _ h h' => le_trans h h'⟩

/-- The sorted pull-request list (`sort_unstable_by_key` on the login). -/
def sortPrs (prs : List PullRequest) : List PullRequest :=
  List.insertionSort loginLE prs

/-- itertools `group_by` keyed on `PullRequest.key`: splits a list into runs
of adjacent elements with equal key.  Each group is kept as (head, tail), so
non-emptiness is structural. -/
def groupKeyed : List PullRequest → List (PullRequest × List PullRequest)
  | [] => []
  | pr :: rest =>
    match groupKeyed rest with
    | [] => [(pr, [])]
    | (h, t) :: gs =>
      if pr.key = h.key then (pr, h :: t) :: gs else (pr, []) :: (h, t) :: gs

/-- One `(username, user_id, pr_count, first_pr_date)` tuple of the `results`
vector. -/
structure Summary where
  login : String
  id : Nat
  count : Nat
  first : Int
  deriving Repr, DecidableEq

/-- `batch.into_iter().map(|pr| pr.created_at).min().unwrap()` on the
non-empty group `(pr, tail)`. -/
def minCreated (pr : PullRequest) (tail : List PullRequest) : Int :=
  (tail.map (·.created_at)).foldl min pr.created_at

/-- The map body building one element of `results` from one group. -/
def summarize (g : PullRequest × List PullRequest) : Summary :=
  { login := g.1.user.login
    id := g.1.user.id
    count := (g.1 :: g.2).length
    first := minCreated g.1 g.2 }

/-- The whole `results` computation: collect, sort by login, group by
(login, id), summarise each group. -/
def aggregate (prs : List PullRequest) : List Summary :=
  (groupKeyed (sortPrs prs)).map summarize

/-! ## Authenticated enrichment -/

/-- `AdditionalUserInfo` from the binary: the two follow sets and the
login-keyed user-info map (`HashMap` modelled as an association list). -/
structure AdditionalUserInfo where
  follows_you : List String
  you_follow : List String
  user_info : List (String × UserInfo)
  deriving Repr, DecidableEq

/-- Association-list lookup (first matching key), the read half of
`HashMap::remove`. -/
def lookupInfo (login : String) : List (String × UserInfo) → Option UserInfo
  | [] => none
  | (k, v) :: rest => if k = login then some v else lookupInfo login rest

/-- Removal of the first entry with the given key, the write half of
`HashMap::remove`. -/
def removeInfo (login : String) : List (String × UserInfo) → List (String × UserInfo)
  | [] => []
  | (k, v) :: rest => if k = login then rest else (k, v) :: removeInfo login rest

/-- The body of the output loop for one summary when authenticated: the full
eight-field record, with the sentinel branch for logins absent from the
user-info map. -/
def enrichRow (info : AdditionalUserInfo) (s : Summary) : List String :=
  match lookupInfo s.login info.user_info with
  | some u =>
    [s.login, toString s.id, toString s.count,
      toString ((s.first - u.created_at).tdiv 86400),
      u.name.getD "",
      toString (info.you_follow.contains s.login),
      toString (info.follows_you.contains s.login),
      u.twitter_username.getD ""]
  | none =>
    [s.login, toString s.id, toString s.count, "-1", "",
      toString (info.you_follow.contains s.login),
      toString (info.follows_you.contains s.login), ""]

/-- The authenticated output loop: `user_info.remove(&username)` mutates the
map between iterations, modelled by threading the shrunken map. -/
def enrich (info : AdditionalUserInfo) : List Summary → List (List String)
  | [] => []
  | s :: rest =>
    enrichRow info s ::
      enrich { info with user_info := removeInfo s.login info.user_info } rest

/-- Row rendering for one run: three plain fields per summary when the
"who am I" probe failed, the enriched eight fields when it succeeded. -/
def renderRows (info? : Option AdditionalUserInfo) (results : List Summary) :
    List (List String) :=
  match info? with
  | none => results.map (fun s => [s.login, toString s.id, toString s.count])
  | some info => enrich info results

/-! ## The `list-pr-contributors` command -/

/-- Splits a character list at every `/`. -/
def splitSlash : List Char → List (List Char)
  | [] => [[]]
  | c :: cs =>
    match splitSlash cs with
    | [] => [[]]
    | g :: gs => if c = '/' then [] :: g :: gs else (c :: g) :: gs

/-- Modelled from the spec: `octocrabby::parse_repo_path` is not under
`src/`; per §6 the repository path parameter is "formatted `owner/name`", so
the path parses exactly when it consists of two slash-separated components. -/
def parse_repo_path (path : String) : Option (String × String) :=
  match (splitSlash path.toList).map String.mk with
  | [owner, name] => some (owner, name)
  | _ => none

/-- Observable outcome of a `list-pr-contributors` run: whether any remote
call was issued, the `log::error!` lines, and the result of `main` carrying
the rows written to stdout. -/
structure CmdOutcome where
  networkCalled : Bool
  errorLog : List String
  result : Except CrabbyError (List (List String))
  deriving Repr, DecidableEq

/-- The rows a run wrote to stdout (none when `main` returned an error). -/
def CmdOutcome.rows (c : CmdOutcome) : List (List String) :=
  c.result.toOption.getD []

/-- The whole `Command::ListPrContributors` arm.  `fetchPrs` stands for
`pull_requests(...).try_collect()`; `auth = none` models a failed
"who am I" probe, `auth = some r` a successful probe followed by
`load_additional_user_info` returning `r` (whose error is propagated by
`?`). -/
def listPrContributorsCmd (repoPath : String)
    (fetchPrs : String → String → Except TransportError (List PullRequest))
    (auth : Option (Except TransportError AdditionalUserInfo)) : CmdOutcome :=
  match parse_repo_path repoPath with
  | none =>
    { networkCalled := false
      errorLog := ["Invalid repository path: " ++ repoPath]
      result := .ok [] }
  | some (owner, repo) =>
    match fetchPrs owner repo with
    | .error e => { networkCalled := true, errorLog := [], result := .error (.transport e) }
    | .ok prs =>
      let results := aggregate prs
      match auth with
      | some (.error e) =>
        { networkCalled := true, errorLog := [], result := .error (.transport e) }
      | some (.ok info) =>
        { networkCalled := true, errorLog := [], result := .ok (renderRows (some info) results) }
      | none =>
        { networkCalled := true, errorLog := [], result := .ok (renderRows none results) }

/-! ## The `check-follow` command -/

/-- The `Command::CheckFollow` arm: default the target to the authenticated
user's login when absent, query `check_follow(follower, target)`, print the
boolean.  `current` stands for `instance.current().user().await` (its login),
`cf` for `check_follow`. -/
def checkFollowCmd (user : Option String) (follower : String)
    (current : Except TransportError String)
    (cf : String → String → Except TransportError Bool) :
    Except TransportError String := do
  let target ← match user with
    | some value => pure value
    | none => current
  let result ← cf follower target
  pure (toString result)

/-! ## Concrete fixtures used by witnesses and counterexamples -/

/-- A fetch oracle that always fails with HTTP 500. -/
def fetchFails : String → String → Except TransportError (List PullRequest) :=
  fun _ _ => .error (.http 500)

/-- Fixture pull requests: two by `u1` (the later one first), one by `u2`. -/
def prU1a : PullRequest := ⟨⟨"u1", 1⟩, 100⟩

/-- Fixture pull request: the earlier `u1` pull request. -/
def prU1b : PullRequest := ⟨⟨"u1", 1⟩, 50⟩

/-- Fixture pull request by `u2`. -/
def prU2 : PullRequest := ⟨⟨"u2", 2⟩, 200⟩

/-- A fetch oracle returning the three fixture pull requests. -/
def fetchFixture : String → String → Except TransportError (List PullRequest) :=
  fun _ _ => .ok [prU2, prU1a, prU1b]

/-- Fixture enrichment data: profile info for `u1` only. -/
def infoFixture : AdditionalUserInfo :=
  { follows_you := ["u1"]
    you_follow := []
    user_info := [("u1", ⟨"u1", 10, some "User One", none⟩)] }

/-- Fixture stdin for `block-users`: a header row and three data rows. -/
def stdinBatch : List (Except CsvError CsvRecord) :=
  [.ok ("login", []), .ok ("u1", []), .ok ("u2", []), .ok ("u3", [])]

/-- A block oracle that fails with a transport error on `u2` only. -/
def blockFailsU2 : String → Except TransportError Bool :=
  fun u => if u = "u2" then .error (.http 500) else .ok true

/-- Fixture stdin for `block-users`: two rows, no extra fields. -/
def stdinTwoRows : List (Except CsvError CsvRecord) :=
  [.ok ("alice", []), .ok ("bob", ["extra"])]

/-- A block oracle that always succeeds with a state change. -/
def blockAllOk : String → Except TransportError Bool :=
  fun _ => .ok true

/-- Fixture stdin for `block-users` whose second data row fails to parse. -/
def stdinBadRow : List (Except CsvError CsvRecord) :=
  [.ok ("login", []), .ok ("u1", []), .error (.parse "unequal lengths"), .ok ("u3", [])]

/-- The login-determines-id invariant of the data model: within one fetched
collection, a login identifies a single numeric account id. -/
def LDI (l : List PullRequest) : Prop :=
  ∀ a ∈ l, ∀ b ∈ l, a.user.login = b.user.login → a.user.id = b.user.id

instance (l : List PullRequest) : Decidable (LDI l) :=
  inferInstanceAs (Decidable (∀ a ∈ l, ∀ b ∈ l, _ → _))

/-! ## Lemmas about the `block-users` command -/

/-- With error-free input, the first loop collects exactly the first field of
every record, in order. -/
theorem collectUsernames_map_ok (recs : List CsvRecord) :
    collectUsernames (recs.map .ok) = .ok (recs.map (·.1)) := by
  induction recs with
  | nil => rfl
  | cons r rest ih => simp [collectUsernames, ih, Except.map]

/-- If some record fails to parse, the first loop returns a CSV error. -/
theorem collectUsernames_error_of_mem
    (l : List (Except CsvError CsvRecord)) (e : CsvError)
    (h : Except.error e ∈ l) :
    ∃ e', collectUsernames l = .error e' := by
  induction l with
  | nil => cases h
  | cons r rest ih =>
    match r with
    | .error e' => exact ⟨e', rfl⟩
    | .ok rec =>
      have hmem : Except.error e ∈ rest := by
        rcases List.mem_cons.mp h with h' | h'
        · cases h'
        · exact h'
      obtain ⟨e', he'⟩ := ih hmem
      exact ⟨e', by simp [collectUsernames, he', Except.map]⟩

/-- The second loop attempts every username while the block oracle keeps
succeeding, and stops at the first transport error. -/
theorem processBlocks_append_error
    (block : String → Except TransportError Bool)
    (pre : List String) (u : String) (post : List String) (e : TransportError)
    (hpre : ∀ v ∈ pre, ∃ b, block v = .ok b)
    (hu : block u = .error e) :
    processBlocks block (pre ++ u :: post) =
      ⟨pre ++ [u], .error (.transport e)⟩ := by
  induction pre with
  | nil => simp [processBlocks, hu]
  | cons v rest ih =>
    obtain ⟨b, hb⟩ := hpre v (List.mem_cons_self v rest)
    have ih' := ih (fun w hw => hpre w (List.mem_cons_of_mem v hw))
    simp [processBlocks, hb, ih']

/-- The second loop attempts every username when the block oracle never
fails, and the run succeeds. -/
theorem processBlocks_all_ok
    (block : String → Except TransportError Bool)
    (l : List String)
    (h : ∀ u : String, ∃ b, block u = .ok b) :
    processBlocks block l = ⟨l, .ok ()⟩ := by
  induction l with
  | nil => rfl
  | cons u rest ih =>
    obtain ⟨b, hb⟩ := h u
    simp [processBlocks, hb, ih]

/-! ## Claim theorems for the `block-users` command -/

/-- C1 (counterexample): on a batch `u1, u2, u3` where blocking `u2`
raises a `TransportError`, the later account `u3` is never attempted — the
`?` in the block loop aborts the whole command. -/
theorem block_transport_error_not_isolated :
    collectUsernames (readRecords stdinBatch) = .ok ["u1", "u2", "u3"] ∧
    (blockUsers stdinBatch blockFailsU2).attempted = ["u1", "u2"] ∧
    "u3" ∉ (blockUsers stdinBatch blockFailsU2).attempted ∧
    (blockUsers stdinBatch blockFailsU2).result =
      .error (.transport (.http 500)) := by
  decide

/-- C1 (amended): a `TransportError` while blocking one account aborts the
batch: the accounts before it and the failing account are attempted, the
accounts after it are not, and the command surfaces the transport error. -/
theorem block_transport_error_aborts_batch
    (stdin : List (Except CsvError CsvRecord))
    (block : String → Except TransportError Bool)
    (pre : List String) (u : String) (post : List String) (e : TransportError)
    (hparse : collectUsernames (readRecords stdin) = .ok (pre ++ u :: post))
    (hpre : ∀ v ∈ pre, ∃ b, block v = .ok b)
    (hu : block u = .error e) :
    (blockUsers stdin block).attempted = pre ++ [u] ∧
    (blockUsers stdin block).result = .error (.transport e) := by
  have h2 := processBlocks_append_error block pre u post e hpre hu
  simp [blockUsers, hparse, h2]

/-- Witness for the amended C1 theorem at the concrete fixture batch. -/
theorem block_transport_error_aborts_batch_witness :
    collectUsernames (readRecords stdinBatch) = .ok (["u1"] ++ "u2" :: ["u3"]) ∧
    (∀ v ∈ ["u1"], ∃ b, blockFailsU2 v = .ok b) ∧
    blockFailsU2 "u2" = .error (.http 500) ∧
    ((blockUsers stdinBatch blockFailsU2).attempted = ["u1"] ++ ["u2"] ∧
      (blockUsers stdinBatch blockFailsU2).result =
        .error (.transport (.http 500))) :=
  ⟨by decide, fun v hv => ⟨true, by fin_cases hv; decide⟩, by decide,
    block_transport_error_aborts_batch stdinBatch blockFailsU2
      ["u1"] "u2" ["u3"] (.http 500) (by decide)
      (fun v hv => ⟨true, by fin_cases hv; decide⟩) (by decide)⟩

/-- C8 (counterexample): with two stdin rows `alice` and `bob`, only `bob`
is blocked — the default CSV reader treats the first row as a header, so the
block operation is not invoked once per input row. -/
theorem first_row_consumed_as_header :
    (blockUsers stdinTwoRows blockAllOk).attempted = ["bob"] ∧
    "alice" ∉ (blockUsers stdinTwoRows blockAllOk).attempted ∧
    Except.ok (("alice", []) : CsvRecord) ∈ stdinTwoRows := by
  decide

/-- C8 (amended): when every row parses and no block call fails, the login
submitted for blocking is the first field of each row after the first (the
first row is consumed as a CSV header), additional fields are ignored, and
the block operation is invoked exactly once per such row, in order. -/
theorem block_users_first_field_per_data_row
    (recs : List CsvRecord)
    (block : String → Except TransportError Bool)
    (hblk : ∀ u : String, ∃ b, block u = .ok b) :
    (blockUsers (recs.map .ok) block).attempted = (recs.drop 1).map (·.1) ∧
    (blockUsers (recs.map .ok) block).result = .ok () := by
  have hrec : readRecords (recs.map .ok) = (recs.drop 1).map .ok := by
    simp [readRecords, List.map_drop]
  have hcol : collectUsernames (readRecords (recs.map .ok)) =
      .ok ((recs.drop 1).map (·.1)) := by
    rw [hrec, collectUsernames_map_ok]
  have h2 := processBlocks_all_ok block ((recs.drop 1).map (·.1)) hblk
  rw [blockUsers, hcol]
  show (processBlocks block ((recs.drop 1).map (·.1))).attempted = _ ∧
    (processBlocks block ((recs.drop 1).map (·.1))).result = _
  rw [h2]
  exact ⟨rfl, rfl⟩

/-- Witness for the amended C8 theorem at a concrete two-row input. -/
theorem block_users_first_field_per_data_row_witness :
    (∀ u : String, ∃ b, blockAllOk u = .ok b) ∧
    ((blockUsers ([("login", []), ("alice", ["x"]), ("bob", [])].map .ok)
        blockAllOk).attempted =
      ([("login", []), ("alice", ["x"]), ("bob", [])].drop 1).map (·.1) ∧
      (blockUsers ([("login", []), ("alice", ["x"]), ("bob", [])].map .ok)
        blockAllOk).result = .ok ()) :=
  ⟨fun _ => ⟨true, rfl⟩,
    block_users_first_field_per_data_row
      [("login", []), ("alice", ["x"]), ("bob", [])] blockAllOk
      (fun _ => ⟨true, rfl⟩)⟩

/-- C10: the whole input is parsed before the first block call, so a parse
error on any row means no account is ever blocked and the command fails with
the CSV error. -/
theorem parse_error_blocks_nothing
    (stdin : List (Except CsvError CsvRecord))
    (block : String → Except TransportError Bool)
    (h : ∃ e, Except.error e ∈ readRecords stdin) :
    (blockUsers stdin block).attempted = [] ∧
    ∃ e, (blockUsers stdin block).result = .error (.csv e) := by
  obtain ⟨e, he⟩ := h
  obtain ⟨e', he'⟩ := collectUsernames_error_of_mem (readRecords stdin) e he
  unfold blockUsers
  rw [he']
  exact ⟨rfl, e', rfl⟩

/-- Witness for C10 at a concrete input with a malformed third row. -/
theorem parse_error_blocks_nothing_witness :
    (∃ e, Except.error e ∈ readRecords stdinBadRow) ∧
    ((blockUsers stdinBadRow blockAllOk).attempted = [] ∧
      ∃ e, (blockUsers stdinBadRow blockAllOk).result = .error (.csv e)) :=
  ⟨⟨.parse "unequal lengths", by decide⟩,
    parse_error_blocks_nothing stdinBadRow blockAllOk
      ⟨.parse "unequal lengths", by decide⟩⟩

/-! ## Lemmas about the grouping step -/

/-- The groups flatten back to the input list: grouping neither drops nor
duplicates pull requests. -/
theorem groupKeyed_flatten (l : List PullRequest) :
    ((groupKeyed l).map (fun g => g.1 :: g.2)).flatten = l := by
  induction l with
  | nil => rfl
  | cons pr rest ih =>
    cases hG : groupKeyed rest with
    | nil =>
      rw [hG] at ih
      simp only [List.map_nil, List.flatten_nil] at ih
      simp [groupKeyed, hG, ← ih]
    | cons g gs =>
      obtain ⟨h, t⟩ := g
      rw [hG] at ih
      by_cases hk : pr.key = h.key
      · simp only [groupKeyed, hG, if_pos hk]
        simp only [List.map_cons, List.flatten_cons] at ih ⊢
        simp [ih]
      · simp only [groupKeyed, hG, if_neg hk]
        simp only [List.map_cons, List.flatten_cons] at ih ⊢
        simp [ih]

/-- Every member of a group's tail has the key of the group's head. -/
theorem groupKeyed_homog (l : List PullRequest) :
    ∀ g ∈ groupKeyed l, ∀ x ∈ g.2, x.key = g.1.key := by
  induction l with
  | nil => intro g hg; cases hg
  | cons pr rest ih =>
    cases hG : groupKeyed rest with
    | nil =>
      intro g hg x hx
      simp only [groupKeyed, hG] at hg
      rcases List.mem_singleton.mp hg with rfl
      cases hx
    | cons g0 gs =>
      obtain ⟨h, t⟩ := g0
      intro g hg x hx
      by_cases hk : pr.key = h.key
      · simp only [groupKeyed, hG, if_pos hk] at hg
        rcases List.mem_cons.mp hg with rfl | hg'
        · rcases List.mem_cons.mp hx with rfl | hx'
          · simpa using hk.symm
          · have := ih (h, t) (by rw [hG]; exact List.mem_cons_self _ _) x hx'
            simpa [this] using hk.symm
        · exact ih g (by rw [hG]; exact List.mem_cons_of_mem _ hg') x hx
      · simp only [groupKeyed, hG, if_neg hk] at hg
        rcases List.mem_cons.mp hg with rfl | hg'
        · cases hx
        · exact ih g (by rw [hG]; exact hg') x hx

/-- The group heads form a sublist of the input. -/
theorem groupKeyed_heads_sublist (l : List PullRequest) :
    List.Sublist ((groupKeyed l).map (·.1)) l := by
  induction l with
  | nil => simp [groupKeyed]
  | cons pr rest ih =>
    cases hG : groupKeyed rest with
    | nil =>
      simp only [groupKeyed, hG]
      simp
    | cons g0 gs =>
      obtain ⟨h, t⟩ := g0
      rw [hG] at ih
      by_cases hk : pr.key = h.key
      · simp only [groupKeyed, hG, if_pos hk, List.map_cons]
        refine List.Sublist.cons₂ pr ?_
        simp only [List.map_cons] at ih
        exact List.sublist_of_cons_sublist ih
      · simp only [groupKeyed, hG, if_neg hk, List.map_cons]
        exact List.Sublist.cons₂ pr ih

/-- In a login-sorted list satisfying the login-determines-id invariant,
once the key changes after the head, the head's key never recurs. -/
theorem key_not_in_rest (x h : PullRequest) (l' : List PullRequest)
    (t : List PullRequest) (gs : List (PullRequest × List PullRequest))
    (hp : List.Pairwise loginLE (x :: l')) (hd : LDI (x :: l'))
    (hG : groupKeyed l' = (h, t) :: gs) (hk : x.key ≠ h.key) :
    ∀ y ∈ l', y.key ≠ x.key := by
  have hl' : l' = h :: (t ++ ((gs.map (fun g => g.1 :: g.2)).flatten)) := by
    have := groupKeyed_flatten l'
    rw [hG] at this
    simpa using this.symm
  obtain ⟨hx, hp'⟩ := List.pairwise_cons.mp hp
  intro y hy heq
  have hlogin : y.user.login = x.user.login := by
    have := congrArg Prod.fst heq
    simpa [PullRequest.key] using this
  have hhl' : h ∈ l' := by rw [hl']; exact List.mem_cons_self _ _
  have hxh : x.user.login ≤ h.user.login := hx h hhl'
  have hhy : h.user.login ≤ y.user.login := by
    rw [hl'] at hy
    rcases List.mem_cons.mp hy with rfl | hy'
    · exact le_refl _
    · exact (List.pairwise_cons.mp (hl' ▸ hp')).1 y hy'
  have hhx : h.user.login = x.user.login :=
    le_antisymm (hlogin ▸ hhy) hxh
  have hid : h.user.id = x.user.id :=
    hd h (List.mem_cons_of_mem _ hhl') x (List.mem_cons_self _ _) hhx
  apply hk
  simp [PullRequest.key, hhx, hid]

/-- Main grouping lemma: on a login-sorted input satisfying the
login-determines-id invariant, each group is exactly the sublist of the
input with the group's key, and distinct groups have distinct keys. -/
theorem groupKeyed_filter_pairwise (l : List PullRequest)
    (hp : List.Pairwise loginLE l) (hd : LDI l) :
    (∀ g ∈ groupKeyed l, g.1 :: g.2 = l.filter (fun y => y.key == g.1.key)) ∧
    List.Pairwise (fun g g' => g.1.key ≠ g'.1.key) (groupKeyed l) := by
  induction l with
  | nil => exact ⟨fun g hg => absurd hg (by simp [groupKeyed]), by simp [groupKeyed]⟩
  | cons x l' ih =>
    obtain ⟨hx, hp'⟩ := List.pairwise_cons.mp hp
    have hd' : LDI l' := fun a ha b hb =>
      hd a (List.mem_cons_of_mem _ ha) b (List.mem_cons_of_mem _ hb)
    obtain ⟨ihf, ihp⟩ := ih hp' hd'
    cases hG : groupKeyed l' with
    | nil =>
      have hl' : l' = [] := by
        have := groupKeyed_flatten l'
        rw [hG] at this
        simpa using this.symm
      subst hl'
      constructor
      · intro g hg
        simp only [groupKeyed] at hg
        rcases List.mem_singleton.mp hg with rfl
        simp
      · simp [groupKeyed]
    | cons g0 gs =>
      obtain ⟨h, t⟩ := g0
      by_cases hk : x.key = h.key
      · -- x is merged into the first group of l'
        have hfilt : l'.filter (fun y => y.key == x.key) = h :: t := by
          have := ihf (h, t) (by rw [hG]; exact List.mem_cons_self _ _)
          rw [List.filter_congr (fun y _ => by rw [hk])]
          exact this.symm
        have hne : ∀ g' ∈ gs, x.key ≠ g'.1.key := by
          intro g' hg'
          have := (List.pairwise_cons.mp (hG ▸ ihp)).1 g' hg'
          simpa [hk] using this
        constructor
        · intro g hg
          simp only [groupKeyed, hG, if_pos hk] at hg
          rcases List.mem_cons.mp hg with rfl | hg'
          · simp only [List.filter_cons]
            have : ((x.key == x.key) = true) := by simp
            rw [if_pos this, hfilt]
          · have := ihf g (by rw [hG]; exact List.mem_cons_of_mem _ hg')
            rw [this]
            simp only [List.filter_cons]
            have hne' : ((x.key == g.1.key) = false) := by
              simpa using hne g hg'
            rw [hne']
            simp
        · simp only [groupKeyed, hG, if_pos hk]
          refine List.pairwise_cons.mpr ⟨hne, ?_⟩
          exact (List.pairwise_cons.mp (hG ▸ ihp)).2
      · -- x starts a fresh group
        have hnl : ∀ y ∈ l', y.key ≠ x.key :=
          key_not_in_rest x h l' t gs hp hd hG hk
        have hfilt : l'.filter (fun y => y.key == x.key) = [] := by
          refine List.filter_eq_nil_iff.mpr ?_
          intro y hy
          simpa using hnl y hy
        have hheads : ∀ g' ∈ groupKeyed l', x.key ≠ g'.1.key := by
          intro g' hg'
          have hmem : g'.1 ∈ l' := by
            refine (groupKeyed_heads_sublist l').mem ?_
            exact List.mem_map_of_mem (·.1) hg'
          exact fun hxe => (hnl g'.1 hmem) hxe.symm
        constructor
        · intro g hg
          simp only [groupKeyed, hG, if_neg hk] at hg
          rcases List.mem_cons.mp hg with rfl | hg'
          · simp only [List.filter_cons]
            have : ((x.key == x.key) = true) := by simp
            rw [if_pos this, hfilt]
          · have := ihf g (by rw [hG]; exact hg')
            rw [this]
            simp only [List.filter_cons]
            have hne' : ((x.key == g.1.key) = false) := by
              simpa using hheads g (by rw [hG]; exact hg')
            rw [hne']
            simp
        · simp only [groupKeyed, hG, if_neg hk]
          refine List.pairwise_cons.mpr ⟨?_, hG ▸ ihp⟩
          intro g' hg'
          exact hheads g' (by rw [hG]; exact hg')

/-! ## Lemmas about the minimum fold and the sort -/

/-- The fold computing `min().unwrap()` returns an element of the list. -/
theorem foldl_min_mem (a : Int) (l : List Int) :
    l.foldl min a = a ∨ l.foldl min a ∈ l := by
  induction l generalizing a with
  | nil => exact Or.inl rfl
  | cons b t ih =>
    rcases ih (min a b) with h | h
    · rcases min_choice a b with hm | hm
      · exact Or.inl (by simp only [List.foldl_cons]; rw [h, hm])
      · refine Or.inr (List.mem_cons.mpr (Or.inl ?_))
        simp only [List.foldl_cons]
        rw [h, hm]
    · exact Or.inr (List.mem_cons_of_mem _ (by simpa using h))

/-- The fold computing `min().unwrap()` is a lower bound of the initial value
and every element. -/
theorem foldl_min_le (a : Int) (l : List Int) :
    l.foldl min a ≤ a ∧ ∀ d ∈ l, l.foldl min a ≤ d := by
  induction l generalizing a with
  | nil => exact ⟨le_refl _, fun d hd => absurd hd (List.not_mem_nil d)⟩
  | cons b t ih =>
    obtain ⟨h1, h2⟩ := ih (min a b)
    refine ⟨le_trans h1 (min_le_left a b), ?_⟩
    intro d hd
    rcases List.mem_cons.mp hd with rfl | hd'
    · exact le_trans h1 (min_le_right a d)
    · exact h2 d hd'

/-- The sorted list is a permutation of the input. -/
theorem sortPrs_perm (prs : List PullRequest) :
    List.Perm (sortPrs prs) prs :=
  List.perm_insertionSort loginLE prs

/-- The sorted list is pairwise ordered by login. -/
theorem sortPrs_pairwise (prs : List PullRequest) :
    List.Pairwise loginLE (sortPrs prs) :=
  List.sorted_insertionSort loginLE prs

/-- The login-determines-id invariant transfers to the sorted list. -/
theorem LDI_sortPrs (prs : List PullRequest) (h : LDI prs) :
    LDI (sortPrs prs) := fun a ha b hb =>
  h a ((sortPrs_perm prs).mem_iff.mp ha) b ((sortPrs_perm prs).mem_iff.mp hb)

/-- Aggregate summaries come from groups of the sorted list, and each group
is the key-filtered input (up to the sort permutation). -/
theorem aggregate_group (prs : List PullRequest) (h : LDI prs) :
    ∀ s ∈ aggregate prs, ∃ g ∈ groupKeyed (sortPrs prs),
      s = summarize g ∧
      g.1 :: g.2 = (sortPrs prs).filter (fun y => y.key == g.1.key) := by
  intro s hs
  obtain ⟨g, hg, hsum⟩ := List.mem_map.mp hs
  obtain ⟨hfilt, _⟩ :=
    groupKeyed_filter_pairwise (sortPrs prs) (sortPrs_pairwise prs) (LDI_sortPrs prs h)
  exact ⟨g, hg, hsum.symm, hfilt g hg⟩

/-- Shared helper: each summary's count is the number of input pull requests
with that summary's (login, id) key. -/
theorem aggregate_count_eq (prs : List PullRequest) (h : LDI prs) :
    ∀ s ∈ aggregate prs,
      s.count = (prs.filter (fun pr => pr.key == (s.login, s.id))).length := by
  intro s hs
  obtain ⟨g, _, rfl, hchunk⟩ := aggregate_group prs h s hs
  have hkey : ((summarize g).login, (summarize g).id) = g.1.key := rfl
  rw [hkey]
  have hperm := (sortPrs_perm prs).filter (fun y => y.key == g.1.key)
  calc (summarize g).count = (g.1 :: g.2).length := rfl
    _ = ((sortPrs prs).filter (fun y => y.key == g.1.key)).length := by rw [hchunk]
    _ = (prs.filter (fun y => y.key == g.1.key)).length := hperm.length_eq

/-! ## Claim theorems for the contributor aggregation -/

/-- C2: each contributor group is non-empty, its count is the number of that
contributor's pull requests in the input, and its first-PR date is the
minimum creation timestamp among them. -/
theorem contributor_count_and_first_date (prs : List PullRequest) (h : LDI prs) :
    ∀ s ∈ aggregate prs,
      1 ≤ s.count ∧
      s.count = (prs.filter (fun pr => pr.key == (s.login, s.id))).length ∧
      s.first ∈ (prs.filter (fun pr => pr.key == (s.login, s.id))).map (·.created_at) ∧
      ∀ d ∈ (prs.filter (fun pr => pr.key == (s.login, s.id))).map (·.created_at),
        s.first ≤ d := by
  intro s hs
  have hcount := aggregate_count_eq prs h s hs
  obtain ⟨g, _, rfl, hchunk⟩ := aggregate_group prs h s hs
  have hkey : ((summarize g).login, (summarize g).id) = g.1.key := rfl
  rw [hkey] at hcount ⊢
  have hperm :=
    ((sortPrs_perm prs).filter (fun y => y.key == g.1.key)).map (·.created_at)
  have hdates : ((sortPrs prs).filter (fun y => y.key == g.1.key)).map (·.created_at) =
      g.1.created_at :: g.2.map (·.created_at) := by
    rw [← hchunk]
    simp
  refine ⟨?_, hcount, ?_, ?_⟩
  · show 1 ≤ (g.1 :: g.2).length
    simp
  · have hmem : (summarize g).first ∈ g.1.created_at :: g.2.map (·.created_at) := by
      rcases foldl_min_mem g.1.created_at (g.2.map (·.created_at)) with h1 | h1
      · exact List.mem_cons.mpr (Or.inl h1)
      · exact List.mem_cons_of_mem _ h1
    refine hperm.mem_iff.mp ?_
    rw [hdates]
    exact hmem
  · intro d hd
    have hd' : d ∈ g.1.created_at :: g.2.map (·.created_at) := by
      rw [← hdates]
      exact hperm.mem_iff.mpr hd
    obtain ⟨h1, h2⟩ := foldl_min_le g.1.created_at (g.2.map (·.created_at))
    rcases List.mem_cons.mp hd' with rfl | hd''
    · exact h1
    · exact h2 d hd''

/-- Witness for C2 at the fixture pull requests. -/
theorem contributor_count_and_first_date_witness :
    LDI [prU2, prU1a, prU1b] ∧
    ∀ s ∈ aggregate [prU2, prU1a, prU1b],
      1 ≤ s.count ∧
      s.count = ([prU2, prU1a, prU1b].filter
        (fun pr => pr.key == (s.login, s.id))).length ∧
      s.first ∈ ([prU2, prU1a, prU1b].filter
        (fun pr => pr.key == (s.login, s.id))).map (·.created_at) ∧
      ∀ d ∈ ([prU2, prU1a, prU1b].filter
        (fun pr => pr.key == (s.login, s.id))).map (·.created_at),
        s.first ≤ d :=
  ⟨by decide, contributor_count_and_first_date [prU2, prU1a, prU1b] (by decide)⟩

/-- C3: the emitted summaries are sorted in ascending login order, and
aggregation is deterministic -- the pipeline is a pure function of the
collected pull-request list, so two runs on the same input coincide. -/
theorem output_sorted_and_deterministic (prs : List PullRequest) :
    List.Pairwise (fun a b : String => a ≤ b) ((aggregate prs).map (·.login)) ∧
    aggregate prs = aggregate prs := by
  refine ⟨?_, rfl⟩
  have hmap : (aggregate prs).map (·.login) =
      ((groupKeyed (sortPrs prs)).map (·.1)).map (·.user.login) := by
    simp only [aggregate, List.map_map]
    exact List.map_congr_left fun g _ => rfl
  rw [hmap]
  have hsub := groupKeyed_heads_sublist (sortPrs prs)
  have hpw : List.Pairwise loginLE ((groupKeyed (sortPrs prs)).map (·.1)) :=
    (sortPrs_pairwise prs).sublist hsub
  exact (List.pairwise_map).mpr hpw

/-- C7: every pull request belongs to exactly one summary — summary keys are
distinct, every pull request's key is represented, each summary counts all
pull requests with its key, the counts add up to the total number of pull
requests, and no summaries are produced when the pull-request stream fails
before being exhausted. -/
theorem pr_unique_summary (prs : List PullRequest) (h : LDI prs) :
    ((aggregate prs).map (fun s => (s.login, s.id))).Nodup ∧
    (∀ pr ∈ prs, ∃ s ∈ aggregate prs,
      s.login = pr.user.login ∧ s.id = pr.user.id) ∧
    (∀ s ∈ aggregate prs,
      s.count = (prs.filter (fun pr => pr.key == (s.login, s.id))).length) ∧
    ((aggregate prs).map (·.count)).sum = prs.length ∧
    (∀ (path owner repo : String)
      (f : String → String → Except TransportError (List PullRequest))
      (auth : Option (Except TransportError AdditionalUserInfo))
      (e : TransportError),
      parse_repo_path path = some (owner, repo) → f owner repo = .error e →
      (listPrContributorsCmd path f auth).result = .error (.transport e)) := by
  obtain ⟨_, hpw⟩ :=
    groupKeyed_filter_pairwise (sortPrs prs) (sortPrs_pairwise prs) (LDI_sortPrs prs h)
  refine ⟨?_, ?_, aggregate_count_eq prs h, ?_, ?_⟩
  · have hmap : (aggregate prs).map (fun s => (s.login, s.id)) =
        (groupKeyed (sortPrs prs)).map (fun g => g.1.key) := by
      simp only [aggregate, List.map_map]
      exact List.map_congr_left fun g _ => rfl
    rw [hmap, List.Nodup, List.pairwise_map]
    exact hpw
  · intro pr hpr
    have hprS : pr ∈ (((groupKeyed (sortPrs prs)).map (fun g => g.1 :: g.2)).flatten) := by
      rw [groupKeyed_flatten]
      exact (sortPrs_perm prs).mem_iff.mpr hpr
    obtain ⟨L, hL, hprL⟩ := List.mem_flatten.mp hprS
    obtain ⟨g, hg, rfl⟩ := List.mem_map.mp hL
    have hkeyeq : pr.key = g.1.key := by
      rcases List.mem_cons.mp hprL with rfl | hmem
      · rfl
      · exact groupKeyed_homog (sortPrs prs) g hg pr hmem
    refine ⟨summarize g, List.mem_map_of_mem summarize hg, ?_, ?_⟩
    · exact (congrArg Prod.fst hkeyeq).symm
    · exact (congrArg Prod.snd hkeyeq).symm
  · have hlen : ((((groupKeyed (sortPrs prs)).map (fun g => g.1 :: g.2)).flatten).length) =
        prs.length := by
      rw [groupKeyed_flatten]
      exact (sortPrs_perm prs).length_eq
    rw [← hlen, List.length_flatten, List.map_map]
    simp only [aggregate, List.map_map]
    exact congrArg List.sum (List.map_congr_left fun g _ => rfl)
  · intro path owner repo f auth e hparse herr
    simp [listPrContributorsCmd, hparse, herr]

/-- Witness for C7 at the fixture pull requests. -/
theorem pr_unique_summary_witness :
    LDI [prU2, prU1a, prU1b] ∧
    (((aggregate [prU2, prU1a, prU1b]).map (fun s => (s.login, s.id))).Nodup ∧
    (∀ pr ∈ [prU2, prU1a, prU1b], ∃ s ∈ aggregate [prU2, prU1a, prU1b],
      s.login = pr.user.login ∧ s.id = pr.user.id) ∧
    (∀ s ∈ aggregate [prU2, prU1a, prU1b],
      s.count = ([prU2, prU1a, prU1b].filter
        (fun pr => pr.key == (s.login, s.id))).length) ∧
    ((aggregate [prU2, prU1a, prU1b]).map (·.count)).sum =
      [prU2, prU1a, prU1b].length ∧
    (∀ (path owner repo : String)
      (f : String → String → Except TransportError (List PullRequest))
      (auth : Option (Except TransportError AdditionalUserInfo))
      (e : TransportError),
      parse_repo_path path = some (owner, repo) → f owner repo = .error e →
      (listPrContributorsCmd path f auth).result = .error (.transport e))) :=
  ⟨by decide, pr_unique_summary [prU2, prU1a, prU1b] (by decide)⟩

/-! ## Lemmas about the authenticated enrichment loop -/

/-- Removing one key from the user-info map leaves lookups of other keys
unchanged. -/
theorem lookup_remove_ne (k login : String) (m : List (String × UserInfo))
    (hne : k ≠ login) :
    lookupInfo login (removeInfo k m) = lookupInfo login m := by
  induction m with
  | nil => rfl
  | cons e rest ih =>
    obtain ⟨k', v⟩ := e
    by_cases hk : k' = k
    · subst hk
      simp [removeInfo, lookupInfo, hne]
    · by_cases hl : k' = login
      · subst hl
        simp [removeInfo, lookupInfo, hk]
      · simp [removeInfo, lookupInfo, hk, hl, ih]

/-- The enrichment loop emits exactly one row per summary. -/
theorem enrich_length (info : AdditionalUserInfo) (results : List Summary) :
    (enrich info results).length = results.length := by
  induction results generalizing info with
  | nil => rfl
  | cons s rest ih => simp [enrich, ih]

/-- When the summaries' logins are distinct, the map mutation performed by
`HashMap::remove` is invisible: each row is what a lookup in the initial map
produces. -/
theorem enrich_rows (info : AdditionalUserInfo) (results : List Summary)
    (hnd : (results.map (·.login)).Nodup) :
    ∀ p ∈ results.zip (enrich info results), p.2 = enrichRow info p.1 := by
  induction results generalizing info with
  | nil => intro p hp; cases hp
  | cons s rest ih =>
    intro p hp
    simp only [enrich, List.zip_cons_cons] at hp
    rcases List.mem_cons.mp hp with rfl | hp'
    · rfl
    · have hnd' : (rest.map (·.login)).Nodup := (List.nodup_cons.mp hnd).2
      have hih := ih { info with user_info := removeInfo s.login info.user_info }
        hnd' p hp'
      rw [hih]
      have hmem : p.1 ∈ rest := (List.of_mem_zip hp').1
      have hne : s.login ≠ p.1.login := by
        intro hcontra
        apply (List.nodup_cons.mp hnd).1
        show s.login ∈ List.map (fun x => x.login) rest
        rw [hcontra]
        exact List.mem_map_of_mem (·.login) hmem
      have hlk := lookup_remove_ne s.login p.1.login info.user_info hne
      simp [enrichRow, hlk]

/-- Every enriched row has the eight-field shape with the summary's login,
id and count leading. -/
theorem enrich_shape (info : AdditionalUserInfo) (results : List Summary) :
    ∀ row ∈ enrich info results, ∃ s ∈ results,
      ∃ age name yf fy tw, row =
        [s.login, toString s.id, toString s.count, age, name, yf, fy, tw] := by
  induction results generalizing info with
  | nil => intro row hrow; cases hrow
  | cons s rest ih =>
    intro row hrow
    simp only [enrich] at hrow
    rcases List.mem_cons.mp hrow with rfl | hrow'
    · refine ⟨s, List.mem_cons_self _ _, ?_⟩
      unfold enrichRow
      cases lookupInfo s.login info.user_info with
      | some u => exact ⟨_, _, _, _, _, rfl⟩
      | none => exact ⟨_, _, _, _, _, rfl⟩
    · obtain ⟨s', hs', hex⟩ :=
        ih { info with user_info := removeInfo s.login info.user_info } row hrow'
      exact ⟨s', List.mem_cons_of_mem _ hs', hex⟩

/-- Under the login-determines-id invariant, the aggregated summaries have
pairwise-distinct logins. -/
theorem aggregate_logins_nodup (prs : List PullRequest) (h : LDI prs) :
    ((aggregate prs).map (·.login)).Nodup := by
  obtain ⟨_, hpw⟩ :=
    groupKeyed_filter_pairwise (sortPrs prs) (sortPrs_pairwise prs) (LDI_sortPrs prs h)
  have hmap : (aggregate prs).map (·.login) =
      ((groupKeyed (sortPrs prs)).map (·.1)).map (·.user.login) := by
    simp only [aggregate, List.map_map]
    exact List.map_congr_left fun g _ => rfl
  rw [hmap]
  have hpwHeads : List.Pairwise (fun p q : PullRequest => p.key ≠ q.key)
      ((groupKeyed (sortPrs prs)).map (·.1)) :=
    (List.pairwise_map).mpr hpw
  have hsub := groupKeyed_heads_sublist (sortPrs prs)
  have hpwLogin : List.Pairwise
      (fun p q : PullRequest => p.user.login ≠ q.user.login)
      ((groupKeyed (sortPrs prs)).map (·.1)) := by
    refine hpwHeads.imp_of_mem ?_
    intro p q hp hq hkey hlogin
    exact hkey (by
      have hid := LDI_sortPrs prs h p (hsub.mem hp) q (hsub.mem hq) hlogin
      simp [PullRequest.key, hlogin, hid])
  rw [List.Nodup, List.pairwise_map]
  exact hpwLogin

/-! ## Claim theorems for enrichment, row shapes, path errors, check-follow -/

/-- C4: in the authenticated path, a contributor found in the batch
user-info lookup gets age = (first PR date − account creation) in whole
days; a missing contributor still gets a row, with sentinel age `-1` and
empty name/handle — and one row is emitted per group regardless. -/
theorem enrichment_age_or_sentinel (prs : List PullRequest)
    (info : AdditionalUserInfo) (h : LDI prs) :
    (enrich info (aggregate prs)).length = (aggregate prs).length ∧
    ∀ s row, (s, row) ∈ (aggregate prs).zip (enrich info (aggregate prs)) →
      (∀ u, lookupInfo s.login info.user_info = some u →
        row = [s.login, toString s.id, toString s.count,
          toString ((s.first - u.created_at).tdiv 86400), u.name.getD "",
          toString (info.you_follow.contains s.login),
          toString (info.follows_you.contains s.login),
          u.twitter_username.getD ""]) ∧
      (lookupInfo s.login info.user_info = none →
        row = [s.login, toString s.id, toString s.count, "-1", "",
          toString (info.you_follow.contains s.login),
          toString (info.follows_you.contains s.login), ""]) := by
  refine ⟨enrich_length info _, ?_⟩
  intro s row hmem
  have hrow : row = enrichRow info s :=
    enrich_rows info (aggregate prs) (aggregate_logins_nodup prs h) (s, row) hmem
  constructor
  · intro u hu
    rw [hrow]
    simp [enrichRow, hu]
  · intro hn
    rw [hrow]
    simp [enrichRow, hn]

/-- Witness for C4 at the fixture pull requests and enrichment data. -/
theorem enrichment_age_or_sentinel_witness :
    LDI [prU2, prU1a, prU1b] ∧
    ((enrich infoFixture (aggregate [prU2, prU1a, prU1b])).length =
      (aggregate [prU2, prU1a, prU1b]).length ∧
    ∀ s row, (s, row) ∈
        (aggregate [prU2, prU1a, prU1b]).zip
          (enrich infoFixture (aggregate [prU2, prU1a, prU1b])) →
      (∀ u, lookupInfo s.login infoFixture.user_info = some u →
        row = [s.login, toString s.id, toString s.count,
          toString ((s.first - u.created_at).tdiv 86400), u.name.getD "",
          toString (infoFixture.you_follow.contains s.login),
          toString (infoFixture.follows_you.contains s.login),
          u.twitter_username.getD ""]) ∧
      (lookupInfo s.login infoFixture.user_info = none →
        row = [s.login, toString s.id, toString s.count, "-1", "",
          toString (infoFixture.you_follow.contains s.login),
          toString (infoFixture.follows_you.contains s.login), ""])) :=
  ⟨by decide,
    enrichment_age_or_sentinel [prU2, prU1a, prU1b] infoFixture (by decide)⟩

/-- C5: unauthenticated rows are exactly `login, id, count`; authenticated
rows have exactly the eight fields `login, id, count, age, name,
you_follow, follows_you, handle` in that order; the extra fields are present
iff the "who am I" probe succeeded. -/
theorem contributor_row_fields (path owner repo : String)
    (f : String → String → Except TransportError (List PullRequest))
    (prs : List PullRequest)
    (hp : parse_repo_path path = some (owner, repo))
    (hf : f owner repo = .ok prs) :
    ((listPrContributorsCmd path f none).rows =
      (aggregate prs).map (fun s => [s.login, toString s.id, toString s.count])) ∧
    (∀ info row, row ∈ (listPrContributorsCmd path f (some (.ok info))).rows →
      ∃ s ∈ aggregate prs, ∃ age name yf fy tw,
        row = [s.login, toString s.id, toString s.count, age, name, yf, fy, tw]) ∧
    (∀ auth row, row ∈ (listPrContributorsCmd path f auth).rows →
      ((row.length = 3 ↔ auth = none) ∧ (row.length = 8 ↔ auth ≠ none))) := by
  have hnone : (listPrContributorsCmd path f none).rows =
      (aggregate prs).map (fun s => [s.login, toString s.id, toString s.count]) := by
    simp [listPrContributorsCmd, hp, hf, CmdOutcome.rows, renderRows, Except.toOption]
  have hsome : ∀ info, (listPrContributorsCmd path f (some (.ok info))).rows =
      enrich info (aggregate prs) := by
    intro info
    simp [listPrContributorsCmd, hp, hf, CmdOutcome.rows, renderRows, Except.toOption]
  refine ⟨hnone, ?_, ?_⟩
  · intro info row hrow
    rw [hsome info] at hrow
    exact enrich_shape info (aggregate prs) row hrow
  · intro auth row hrow
    match auth with
    | none =>
      rw [hnone] at hrow
      obtain ⟨s, _, rfl⟩ := List.mem_map.mp hrow
      refine ⟨by simp, by simp⟩
    | some (.error e) =>
      have : (listPrContributorsCmd path f (some (.error e))).rows = [] := by
        simp [listPrContributorsCmd, hp, hf, CmdOutcome.rows, Except.toOption]
      rw [this] at hrow
      cases hrow
    | some (.ok info) =>
      rw [hsome info] at hrow
      obtain ⟨s, _, age, name, yf, fy, tw, rfl⟩ :=
        enrich_shape info (aggregate prs) row hrow
      refine ⟨by simp, by simp⟩

/-- Witness for C5 at the fixture repository path and pull requests. -/
theorem contributor_row_fields_witness :
    parse_repo_path "o/r" = some ("o", "r") ∧
    fetchFixture "o" "r" = .ok [prU2, prU1a, prU1b] ∧
    (((listPrContributorsCmd "o/r" fetchFixture none).rows =
      (aggregate [prU2, prU1a, prU1b]).map
        (fun s => [s.login, toString s.id, toString s.count])) ∧
    (∀ info row,
      row ∈ (listPrContributorsCmd "o/r" fetchFixture (some (.ok info))).rows →
      ∃ s ∈ aggregate [prU2, prU1a, prU1b], ∃ age name yf fy tw,
        row = [s.login, toString s.id, toString s.count, age, name, yf, fy, tw]) ∧
    (∀ auth row, row ∈ (listPrContributorsCmd "o/r" fetchFixture auth).rows →
      ((row.length = 3 ↔ auth = none) ∧ (row.length = 8 ↔ auth ≠ none)))) :=
  ⟨by decide, rfl,
    contributor_row_fields "o/r" "o" "r" fetchFixture [prU2, prU1a, prU1b]
      (by decide) rfl⟩

/-- C6 (counterexample): with an unparseable repository path, the command
issues no network call but also reports no structured input error — it logs
a message and `main` returns success. -/
theorem invalid_repo_path_no_structured_error :
    (listPrContributorsCmd "invalidpath" fetchFails none).networkCalled = false ∧
    (listPrContributorsCmd "invalidpath" fetchFails none).result = .ok [] ∧
    ¬∃ m, (listPrContributorsCmd "invalidpath" fetchFails none).result =
      .error (.inputFormat m) := by
  refine ⟨by decide, by decide, ?_⟩
  intro ⟨m, hm⟩
  rw [show (listPrContributorsCmd "invalidpath" fetchFails none).result =
    .ok [] by decide] at hm
  cases hm

/-- C6 (amended): an unparseable repository path aborts the operation before
any network call and logs an invalid-path error message, but the process
result is success with no output rows — no structured input error reaches
the caller. -/
theorem invalid_repo_path_logs_and_succeeds (path : String)
    (f : String → String → Except TransportError (List PullRequest))
    (auth : Option (Except TransportError AdditionalUserInfo))
    (h : parse_repo_path path = none) :
    (listPrContributorsCmd path f auth).networkCalled = false ∧
    (listPrContributorsCmd path f auth).errorLog =
      ["Invalid repository path: " ++ path] ∧
    (listPrContributorsCmd path f auth).result = .ok [] := by
  simp [listPrContributorsCmd, h]

/-- Witness for the amended C6 theorem at the path `invalidpath`. -/
theorem invalid_repo_path_logs_and_succeeds_witness :
    parse_repo_path "invalidpath" = none ∧
    ((listPrContributorsCmd "invalidpath" fetchFails none).networkCalled = false ∧
    (listPrContributorsCmd "invalidpath" fetchFails none).errorLog =
      ["Invalid repository path: " ++ "invalidpath"] ∧
    (listPrContributorsCmd "invalidpath" fetchFails none).result = .ok []) :=
  ⟨by decide,
    invalid_repo_path_logs_and_succeeds "invalidpath" fetchFails none (by decide)⟩

/-- Computation rule: with an explicit target, `check-follow` maps the
boolean query result to its printed form. -/
theorem checkFollowCmd_some_eq (t follower : String)
    (current : Except TransportError String)
    (cf : String → String → Except TransportError Bool) :
    checkFollowCmd (some t) follower current cf = (cf follower t).map toString := by
  show (cf follower t).bind (fun r => Except.ok (toString r)) =
    (cf follower t).map toString
  cases cf follower t <;> rfl

/-- Computation rule: with no target and a successful "who am I" call, the
target is the current user's login. -/
theorem checkFollowCmd_none_ok (follower me : String)
    (cf : String → String → Except TransportError Bool) :
    checkFollowCmd none follower (.ok me) cf = (cf follower me).map toString := by
  show (cf follower me).bind (fun r => Except.ok (toString r)) =
    (cf follower me).map toString
  cases cf follower me <;> rfl

/-- Computation rule: with no target and a failed "who am I" call, the
command propagates the transport error. -/
theorem checkFollowCmd_none_error (follower : String) (e : TransportError)
    (cf : String → String → Except TransportError Bool) :
    checkFollowCmd none follower (.error e) cf = .error e := rfl

/-- C9: `check-follow` defaults the target to the authenticated user's login
when the target argument is absent, and prints exactly one boolean token —
the result of the direct follow query. -/
theorem check_follow_default_and_boolean (user? : Option String)
    (follower : String) (current : Except TransportError String)
    (cf : String → String → Except TransportError Bool) :
    (∀ t, user? = some t →
      checkFollowCmd user? follower current cf = (cf follower t).map toString) ∧
    (user? = none → ∀ me, current = .ok me →
      checkFollowCmd user? follower current cf = (cf follower me).map toString) ∧
    (∀ out, checkFollowCmd user? follower current cf = .ok out →
      out = "true" ∨ out = "false") := by
  refine ⟨?_, ?_, ?_⟩
  · intro t ht
    subst ht
    exact checkFollowCmd_some_eq t follower current cf
  · intro hnone me hme
    subst hnone
    subst hme
    exact checkFollowCmd_none_ok follower me cf
  · intro out hout
    match user? with
    | some t =>
      rw [checkFollowCmd_some_eq] at hout
      cases hcf : cf follower t with
      | ok b =>
        rw [hcf] at hout
        simp only [Except.map, Except.ok.injEq] at hout
        cases b
        · exact Or.inr (by rw [← hout]; rfl)
        · exact Or.inl (by rw [← hout]; rfl)
      | error e =>
        rw [hcf] at hout
        simp [Except.map] at hout
    | none =>
      match hcur : current with
      | .error e =>
        rw [checkFollowCmd_none_error] at hout
        cases hout
      | .ok me =>
        rw [checkFollowCmd_none_ok] at hout
        cases hcf : cf follower me with
        | ok b =>
          rw [hcf] at hout
          simp only [Except.map, Except.ok.injEq] at hout
          cases b
          · exact Or.inr (by rw [← hout]; rfl)
          · exact Or.inl (by rw [← hout]; rfl)
        | error e =>
          rw [hcf] at hout
          simp [Except.map] at hout

/-- Witness for C9: absent target argument, target defaults to the current
user's login `me`. -/
theorem check_follow_default_and_boolean_witness :
    checkFollowCmd none "alice" (.ok "me") (fun _ _ => .ok true) =
      .ok "true" := by
  have h := (check_follow_default_and_boolean none "alice" (.ok "me")
    (fun _ _ => .ok true)).2.1 rfl "me" rfl
  simpa [Except.map] using h

end Octocrabby
